import Mathlib

set_option maxHeartbeats 1000000
set_option maxRecDepth 100000

/-!
Shallow embedding of the `pytorch-post-hoc-ema` repository
(`src/posthoc_ema/karras_ema.py` and `src/posthoc_ema/posthoc_ema.py`).

Torch tensors are modelled as a dtype tag together with a real value
(machine floating point is modelled by `ℝ`; rounding is not modelled).
A module ("model") is an ordered list of parameter names, an ordered list
of buffer names, and a map from names to tensors.  In-place tensor writes
become functional updates of that map.  Device handling
(`allow_different_devices`, `move_ema_to_online_device`) is not modelled:
it only moves tensors between devices and never changes values.
-/

/-- Torch dtypes relevant to the embedding.  `boolT` stands for `torch.bool`. -/
inductive DType where
  | float16
  | float32
  | float64
  | complex64
  | int64
  | boolT
deriving DecidableEq

/-- `torch.is_floating_point` on the dtype. -/
def DType.isFloatingPoint : DType → Bool
  | .float16 => true
  | .float32 => true
  | .float64 => true
  | _ => false

/-- `torch.is_complex` on the dtype. -/
def DType.isComplex : DType → Bool
  | .complex64 => true
  | _ => false

/-- A torch tensor: a dtype tag and its (real-valued) contents. -/
structure Tensor where
  dtype : DType
  value : ℝ

/-- `t.to(dtype=dt)`: the value reinterpreted under dtype `dt`
(rounding to the narrower format is not modelled). -/
def Tensor.toDType (t : Tensor) (dt : DType) : Tensor := ⟨dt, t.value⟩

/-- A torch module as seen by this code: named parameters (in
`named_parameters` order), named buffers, and the tensor stored per name. -/
structure TModel where
  paramNames : List String
  bufferNames : List String
  tensors : String → Tensor

/-- `inplace_lerp` (karras_ema.py): `tgt.lerp_(src, w)` sets
`tgt := tgt + w * (src - tgt)`. -/
def lerpVal (tgt src w : ℝ) : ℝ := tgt + w * (src - tgt)

/-- Write the value `v` into the tensor stored at `name`; the in-place
`copy_`/`lerp_` keep the target tensor's dtype. -/
def setVal (ts : String → Tensor) (name : String) (v : ℝ) : String → Tensor :=
  fun n => if n = name then ⟨(ts name).dtype, v⟩ else ts n

/-- `KarrasEMA.beta` (karras_ema.py line 142):
`(1.0 - 1.0 / (step + 1.0)) ** (1.0 + gamma)`, as a function of the
stored `gamma` and the current value of the `step` counter. -/
noncomputable def betaFun (gamma : ℝ) (step : ℕ) : ℝ :=
  (1 - 1 / ((step : ℝ) + 1)) ^ (1 + gamma)

/-- State of a `KarrasEMA` engine (karras_ema.py, class `KarrasEMA`).
`parameterNames` and `bufferNames` are the name sets collected in
`__init__` from the EMA model's floating/complex entries.  The online
model is not a field: it is a swappable external reference
(`self.online_model[0]`), so each operation that reads it takes it as an
argument. -/
structure KarrasEMA where
  gamma : ℝ
  frozen : Bool
  updateEvery : ℕ
  paramOrBufferNamesNoEma : List String
  ignoreNames : List String
  ignoreStartswithNames : List String
  emaModel : TModel
  parameterNames : List String
  bufferNames : List String
  initted : Bool
  step : ℕ

/-- `KarrasEMA.__init__` with an explicit `gamma` (when `sigma_rel` is
given the constructor first maps it to `gamma`; the claims quantify over
`gamma` directly).  `ema_model` defaults to `deepcopy(model)`. -/
def KarrasEMA.init (model : TModel) (gamma : ℝ) (updateEvery : ℕ) (frozen : Bool)
    (noEmaNames ignoreNames ignoreStartswithNames : List String) : KarrasEMA where
  gamma := gamma
  frozen := frozen
  updateEvery := updateEvery
  paramOrBufferNamesNoEma := noEmaNames
  ignoreNames := ignoreNames
  ignoreStartswithNames := ignoreStartswithNames
  emaModel := model
  parameterNames := model.paramNames.filter
    (fun n => (model.tensors n).dtype.isFloatingPoint || (model.tensors n).dtype.isComplex)
  bufferNames := model.bufferNames.filter
    (fun n => (model.tensors n).dtype.isFloatingPoint || (model.tensors n).dtype.isComplex)
  initted := false
  step := 0

/-- `KarrasEMA._should_update_param`. -/
def KarrasEMA.shouldUpdateParam (e : KarrasEMA) (name : String) : Bool :=
  if e.ignoreNames.contains name then false
  else if e.ignoreStartswithNames.any (fun pre => pre.isPrefixOf name) then false
  else if e.paramOrBufferNamesNoEma.contains name then false
  else true

/-- `KarrasEMA.get_params_iter`: iterate `named_parameters` of `m`,
skipping names not in `self.parameter_names`. -/
def KarrasEMA.getParamsIter (e : KarrasEMA) (m : TModel) : List (String × Tensor) :=
  (m.paramNames.filter (fun n => e.parameterNames.contains n)).map (fun n => (n, m.tensors n))

/-- `KarrasEMA.beta` as a property of the engine state. -/
noncomputable def KarrasEMA.beta (e : KarrasEMA) : ℝ := betaFun e.gamma e.step

/-- `KarrasEMA.copy_params_from_model_to_ema`: zip the EMA model's and the
online model's filtered parameter iterators and `copy_` each eligible pair
(the name used for the eligibility check and for the written tensor comes
from the EMA-model side of the zip). -/
def KarrasEMA.copyParamsFromModelToEma (e : KarrasEMA) (online : TModel) : KarrasEMA :=
  let pairs := (e.getParamsIter e.emaModel).zip (e.getParamsIter online)
  let ts' := pairs.foldl
    (fun ts pr => if e.shouldUpdateParam pr.1.1 then setVal ts pr.1.1 pr.2.2.value else ts)
    e.emaModel.tensors
  { e with emaModel := { e.emaModel with tensors := ts' } }

/-- `KarrasEMA.update_moving_average`: zip the online model's and the EMA
model's filtered parameter iterators; for each eligible pair, in place,
`ma.lerp_(current, 1 - beta)`.  The eligibility check uses the
online-side name; the write happens at the EMA-side tensor, which reads
its value at fold time (in-place semantics). -/
noncomputable def KarrasEMA.updateMovingAverage (e : KarrasEMA) (online : TModel) : KarrasEMA :=
  let pairs := (e.getParamsIter online).zip (e.getParamsIter e.emaModel)
  let ts' := pairs.foldl
    (fun ts pr =>
      if e.shouldUpdateParam pr.1.1 then
        setVal ts pr.2.1 (lerpVal (ts pr.2.1).value pr.1.2.value (1 - e.beta))
      else ts)
    e.emaModel.tensors
  { e with emaModel := { e.emaModel with tensors := ts' } }

/-- `KarrasEMA.update` (karras_ema.py lines 144-157): capture `step`,
increment the counter, return early unless `step % update_every == 0`
(with the captured, pre-increment value), bootstrap-copy on the first
firing, then blend unless frozen.  `beta` inside the blend reads the
already incremented counter. -/
noncomputable def KarrasEMA.update (e : KarrasEMA) (online : TModel) : KarrasEMA :=
  let stepBefore := e.step
  let e1 : KarrasEMA := { e with step := e.step + 1 }
  if stepBefore % e1.updateEvery ≠ 0 then e1
  else
    let e2 := if e1.initted then e1
      else { e1.copyParamsFromModelToEma online with initted := true }
    if e2.frozen then e2 else e2.updateMovingAverage online

/-- `n` successive calls to `KarrasEMA.update`, the `k`-th call seeing the
online model `ms k`. -/
noncomputable def KarrasEMA.updateN (e : KarrasEMA) (ms : ℕ → TModel) : ℕ → KarrasEMA
  | 0 => e
  | n + 1 => (e.updateN ms n).update (ms n)

/-- Ascending sort by step used by `_cleanup_old_checkpoints` and
`state_dict` (`sorted(..., key=lambda p: int(p.stem.split(".")[1]))`);
per profile, a checkpoint file is identified by its step. -/
def sortSteps (steps : List ℕ) : List ℕ :=
  steps.mergeSort (fun a b => Nat.ble a b)

/-- `PostHocEMA._cleanup_old_checkpoints`, restricted to one profile's
files (listed as their steps): sort ascending by step, then unlink the
head while more than `max_checkpoints` files remain.  The retained set is
the sorted list with its first `length - maxC` elements dropped. -/
def cleanupSteps (maxC : ℕ) (steps : List ℕ) : List ℕ :=
  let s := sortSteps steps
  s.drop (s.length - maxC)

/-- State of a `PostHocEMA` object (posthoc_ema.py).  The checkpoint
directory is modelled per profile index: `files i` is the list of steps
of the files currently on disk matching the glob pattern of profile `i`
(file identity per profile is its step; contents are modelled separately
by `PostHocEMA.createCheckpointFiles`). -/
structure PostHocEMA where
  maxCheckpoints : ℕ
  updateEvery : ℕ
  checkpointEvery : ℕ
  checkpointDtype : DType
  emaModels : List KarrasEMA
  step : ℕ
  files : ℕ → List ℕ

/-- The state dict of a `KarrasEMA` module: its own registered buffers
`initted` and `step`, then every entry of the wrapped EMA model under the
key namespace of the `ema_model` submodule. -/
def KarrasEMA.stateDictList (e : KarrasEMA) : List (String × Tensor) :=
  ("initted", ⟨DType.boolT, if e.initted then 1 else 0⟩) ::
  ("step", ⟨DType.int64, (e.step : ℝ)⟩) ::
  ((e.emaModel.paramNames ++ e.emaModel.bufferNames).map
    (fun n => (String.append "ema_model." n, e.emaModel.tensors n)))

/-- `PostHocEMA._create_checkpoint`, contents view: for each profile
index the file written at the current step, with every entry of the EMA
module's state dict converted to `torch.float64` before saving. -/
def PostHocEMA.createCheckpointFiles (ph : PostHocEMA) :
    List (ℕ × ℕ × List (String × Tensor)) :=
  ph.emaModels.enum.map
    (fun ie => (ie.1, ph.step,
      ie.2.stateDictList.map (fun kv => (kv.1, kv.2.toDType DType.float64))))

/-- `PostHocEMA._create_checkpoint`, directory view: one new file per
profile index, named by the current (already incremented) step. -/
def PostHocEMA.createCheckpoint (ph : PostHocEMA) : PostHocEMA :=
  { ph with files := fun i =>
      if i < ph.emaModels.length then ph.files i ++ [ph.step] else ph.files i }

/-- `PostHocEMA._cleanup_old_checkpoints`: prune every profile index
independently. -/
def PostHocEMA.cleanupOldCheckpoints (ph : PostHocEMA) : PostHocEMA :=
  { ph with files := fun i =>
      if i < ph.emaModels.length then cleanupSteps ph.maxCheckpoints (ph.files i)
      else ph.files i }

/-- `PostHocEMA.update` (posthoc_ema.py lines 115-136): repoint each
engine's online-model reference to `model`, bootstrap-copy engines that
are not yet initialized, run each engine's own update, increment the
global step, and checkpoint-and-prune when the incremented step is a
multiple of `checkpoint_every`. -/
noncomputable def PostHocEMA.update (ph : PostHocEMA) (model : TModel) : PostHocEMA :=
  let emas := ph.emaModels.map (fun e =>
    let e1 := if e.initted then e
      else { e.copyParamsFromModelToEma model with initted := true }
    e1.update model)
  let ph1 : PostHocEMA := { ph with emaModels := emas, step := ph.step + 1 }
  if ph1.step % ph1.checkpointEvery = 0 then
    ph1.createCheckpoint.cleanupOldCheckpoints
  else ph1

/-- `n` successive calls to `PostHocEMA.update`. -/
noncomputable def PostHocEMA.updateN (ph : PostHocEMA) (ms : ℕ → TModel) : ℕ → PostHocEMA
  | 0 => ph
  | n + 1 => (ph.updateN ms n).update (ms n)

/-- The flat `timesteps` list collected by `PostHocEMA.state_dict`
(posthoc_ema.py lines 216-225): for each profile index in order, the
steps of its checkpoint files sorted ascending. -/
def PostHocEMA.collectTimesteps (ph : PostHocEMA) : List ℕ :=
  (List.range ph.emaModels.length).flatMap (fun i => sortSteps (ph.files i))

/-- The step-resolution front end of `PostHocEMA.state_dict`
(posthoc_ema.py lines 210-231).  Python raises `ValueError` from
`max(timesteps)` when no checkpoint exists (both when the target step is
omitted and when it is given, since the subsequent assert also evaluates
`max(timesteps)`), and `AssertionError` when the requested step exceeds
the maximum stored step; both are modelled as `Except.error`.  On success
the synthesis proceeds with exactly the returned step. -/
def PostHocEMA.stateDictStep (ph : PostHocEMA) (stepArg : Option ℕ) : Except String ℕ :=
  let timesteps := ph.collectTimesteps
  match timesteps.max? with
  | none => Except.error "max() arg is an empty sequence"
  | some m =>
    let step := stepArg.getD m
    if step ≤ m then Except.ok step
    else Except.error "Cannot synthesize for step greater than max available step"

/-- Decimal rendering of a natural number, as produced by Python string
interpolation of an `int`: big-endian digit characters, with `0`
rendered as `"0"`. -/
def renderNat (n : ℕ) : List Char :=
  if n = 0 then ['0'] else (Nat.digits 10 n).reverse.map Nat.digitChar

/-- Numeric value of a decimal digit character. -/
def charToDigit (c : Char) : ℕ := c.toNat - 48

/-- Python `int(s)` restricted to the non-negative decimal strings this
code produces: every character must be a digit, the string non-empty. -/
def parseNat (cs : List Char) : Option ℕ :=
  if cs ≠ [] ∧ cs.all Char.isDigit then
    some (cs.foldl (fun a c => a * 10 + charToDigit c) 0)
  else none

/-- Python `str.split(".")` on a character list. -/
def splitOnDot (cs : List Char) : List (List Char) :=
  match cs with
  | [] => [[]]
  | c :: rest =>
    let r := splitOnDot rest
    if c = '.' then [] :: r
    else
      match r with
      | [] => [[c]]
      | h :: t => (c :: h) :: t

/-- `pathlib.Path(...).stem`: the file name without its last suffix
(everything after the final dot is removed when a dot is present). -/
def pathStem (cs : List Char) : List Char :=
  if '.' ∈ cs then (((cs.reverse).dropWhile (fun c => !(c == '.'))).drop 1).reverse
  else cs

/-- The checkpoint file name written by `PostHocEMA._create_checkpoint`:
`f"{idx}.{step}.pt"` (braces elided: index, dot, step, dot, extension). -/
def checkpointFilename (idx step : ℕ) : List Char :=
  renderNat idx ++ ('.' :: renderNat step) ++ ('.' :: ['p', 't'])

/-- The parse performed by `PostHocEMA.state_dict`
(`map(int, file.stem.split("."))`): split the stem on dots and read the
two components as integers. -/
def parseCheckpointFilename (cs : List Char) : Option (ℕ × ℕ) :=
  match splitOnDot (pathStem cs) with
  | [a, b] =>
    match parseNat a, parseNat b with
    | some i, some s => some (i, s)
    | _, _ => none
  | _ => none

theorem lerpVal_self (v w : ℝ) : lerpVal v v w = v := by
  simp [lerpVal]

theorem setVal_value_of_ne (ts : String → Tensor) (name b : String) (v : ℝ)
    (h : b ≠ name) : setVal ts name v b = ts b := by
  simp [setVal, h]

theorem foldl_copy_frame (c : String → Bool) (v : String → ℝ)
    (L : List String) (ts : String → Tensor) (b : String) (hb : b ∉ L) :
    (L.foldl (fun ts m => if c m then setVal ts m (v m) else ts) ts) b = ts b := by
  induction L generalizing ts with
  | nil => rfl
  | cons a L ih =>
    have hba : b ≠ a := fun h => hb (h ▸ List.mem_cons_self a L)
    have hbL : b ∉ L := fun h => hb (List.mem_cons_of_mem a h)
    simp only [List.foldl_cons]
    rw [ih _ hbL]
    by_cases hc : c a
    · simp [hc, setVal_value_of_ne _ _ _ _ hba]
    · simp [hc]

theorem foldl_copy_mem (c : String → Bool) (v : String → ℝ)
    (L : List String) (ts : String → Tensor) (n : String) (hn : n ∈ L) (hc : c n = true) :
    ((L.foldl (fun ts m => if c m then setVal ts m (v m) else ts) ts) n).value = v n := by
  induction L generalizing ts with
  | nil => cases hn
  | cons a L ih =>
    simp only [List.foldl_cons]
    by_cases hmem : n ∈ L
    · exact ih _ hmem
    · have hna : n = a := by
        rcases List.mem_cons.mp hn with h | h
        · exact h
        · exact absurd h hmem
      subst hna
      rw [foldl_copy_frame c v L _ n hmem]
      simp [hc, setVal]

theorem foldl_lerp_frame (c : String → Bool) (src : String → ℝ) (wt : ℝ)
    (L : List String) (ts : String → Tensor) (b : String) (hb : b ∉ L) :
    (L.foldl
      (fun ts m => if c m then setVal ts m (lerpVal (ts m).value (src m) wt) else ts) ts) b
      = ts b := by
  induction L generalizing ts with
  | nil => rfl
  | cons a L ih =>
    have hba : b ≠ a := fun h => hb (h ▸ List.mem_cons_self a L)
    have hbL : b ∉ L := fun h => hb (List.mem_cons_of_mem a h)
    simp only [List.foldl_cons]
    rw [ih _ hbL]
    by_cases hc : c a
    · simp [hc, setVal_value_of_ne _ _ _ _ hba]
    · simp [hc]

theorem foldl_lerp_preserve (c : String → Bool) (target : String → ℝ) (wt : ℝ)
    (L₀ L : List String) (hsub : ∀ m ∈ L, m ∈ L₀) (ts : String → Tensor)
    (hts : ∀ k, c k = true → k ∈ L₀ → (ts k).value = target k) :
    ∀ k, c k = true → k ∈ L₀ →
      ((L.foldl
        (fun ts m => if c m then setVal ts m (lerpVal (ts m).value (target m) wt) else ts)
        ts) k).value = target k := by
  induction L generalizing ts with
  | nil => exact hts
  | cons a L ih =>
    intro k hk hk0
    simp only [List.foldl_cons]
    refine ih (fun m hm => hsub m (List.mem_cons_of_mem a hm)) _ ?_ k hk hk0
    intro j hj hj0
    by_cases hc : c a
    · by_cases hja : j = a
      · subst hja
        simp [hc, setVal, hts j hj hj0, lerpVal_self]
      · simp [hc, setVal_value_of_ne _ _ _ _ hja, hts j hj hj0]
    · simp [hc, hts j hj hj0]

theorem foldl_pair_copy_frame (c : String → Bool)
    (L : List ((String × Tensor) × (String × Tensor))) (ts : String → Tensor) (b : String)
    (hb : ∀ pr ∈ L, pr.1.1 ≠ b) :
    (L.foldl (fun ts pr => if c pr.1.1 then setVal ts pr.1.1 pr.2.2.value else ts) ts) b
      = ts b := by
  induction L generalizing ts with
  | nil => rfl
  | cons a L ih =>
    simp only [List.foldl_cons]
    rw [ih _ (fun pr h => hb pr (List.mem_cons_of_mem a h))]
    by_cases hc : c a.1.1
    · simp [hc, setVal_value_of_ne _ _ _ _ (Ne.symm (hb a (List.mem_cons_self a L)))]
    · simp [hc]

theorem foldl_pair_lerp_frame (c : String → Bool) (wt : ℝ)
    (L : List ((String × Tensor) × (String × Tensor))) (ts : String → Tensor) (b : String)
    (hb : ∀ pr ∈ L, pr.2.1 ≠ b) :
    (L.foldl
      (fun ts pr =>
        if c pr.1.1 then setVal ts pr.2.1 (lerpVal (ts pr.2.1).value pr.1.2.value wt) else ts)
      ts) b = ts b := by
  induction L generalizing ts with
  | nil => rfl
  | cons a L ih =>
    simp only [List.foldl_cons]
    rw [ih _ (fun pr h => hb pr (List.mem_cons_of_mem a h))]
    by_cases hc : c a.1.1
    · simp [hc, setVal_value_of_ne _ _ _ _ (Ne.symm (hb a (List.mem_cons_self a L)))]
    · simp [hc]

theorem copy_tensors_aligned (e : KarrasEMA) (online : TModel)
    (halign : e.emaModel.paramNames = online.paramNames) :
    (e.copyParamsFromModelToEma online).emaModel.tensors =
      (e.emaModel.paramNames.filter (fun n => e.parameterNames.contains n)).foldl
        (fun ts n =>
          if e.shouldUpdateParam n then setVal ts n (online.tensors n).value else ts)
        e.emaModel.tensors := by
  unfold KarrasEMA.copyParamsFromModelToEma
  dsimp only [KarrasEMA.getParamsIter]
  rw [← halign, List.zip_map', List.foldl_map]

theorem ma_tensors_aligned (e : KarrasEMA) (online : TModel)
    (halign : e.emaModel.paramNames = online.paramNames) :
    (e.updateMovingAverage online).emaModel.tensors =
      (online.paramNames.filter (fun n => e.parameterNames.contains n)).foldl
        (fun ts n =>
          if e.shouldUpdateParam n then
            setVal ts n (lerpVal (ts n).value (online.tensors n).value (1 - e.beta))
          else ts)
        e.emaModel.tensors := by
  unfold KarrasEMA.updateMovingAverage
  dsimp only [KarrasEMA.getParamsIter]
  rw [halign, List.zip_map', List.foldl_map]

theorem KarrasEMA.update_step (e : KarrasEMA) (m : TModel) :
    (e.update m).step = e.step + 1 := by
  unfold KarrasEMA.update
  dsimp only
  split
  · rfl
  · split <;> split <;> rfl

theorem KarrasEMA.update_not_fire (e : KarrasEMA) (m : TModel)
    (h : e.step % e.updateEvery ≠ 0) :
    e.update m = { e with step := e.step + 1 } := by
  unfold KarrasEMA.update
  dsimp only
  rw [if_pos h]

@[simp] theorem copy_frozen (e : KarrasEMA) (m : TModel) :
    (e.copyParamsFromModelToEma m).frozen = e.frozen := rfl

@[simp] theorem copy_step (e : KarrasEMA) (m : TModel) :
    (e.copyParamsFromModelToEma m).step = e.step := rfl

@[simp] theorem copy_paramNames (e : KarrasEMA) (m : TModel) :
    (e.copyParamsFromModelToEma m).emaModel.paramNames = e.emaModel.paramNames := rfl

@[simp] theorem copy_bufferNames (e : KarrasEMA) (m : TModel) :
    (e.copyParamsFromModelToEma m).emaModel.bufferNames = e.emaModel.bufferNames := rfl


theorem update_fresh_value (e : KarrasEMA) (online : TModel)
    (hstep : e.step = 0) (hinit : e.initted = false)
    (halign : e.emaModel.paramNames = online.paramNames) (n : String)
    (hmem : n ∈ e.emaModel.paramNames) (hpn : e.parameterNames.contains n = true)
    (hs : e.shouldUpdateParam n = true) :
    ((e.update online).emaModel.tensors n).value = (online.tensors n).value := by
  obtain ⟨g, fz, ue, noE, ign, igs, em, pns, bns, initb, st⟩ := e
  dsimp only at hstep hinit halign hmem hpn hs
  subst hstep
  subst hinit
  unfold KarrasEMA.update
  dsimp only
  rw [if_neg (show ¬((0 : ℕ) % ue ≠ 0) by simp)]
  rw [if_neg (show ¬(false = true) by simp)]
  set e1 : KarrasEMA :=
    ⟨g, fz, ue, noE, ign, igs, em, pns, bns, false, 0 + 1⟩ with he1
  set e2 : KarrasEMA :=
    { e1.copyParamsFromModelToEma online with initted := true } with he2
  have hcopyval : ∀ k, k ∈ em.paramNames → pns.contains k = true →
      KarrasEMA.shouldUpdateParam e1 k = true →
      ((e1.copyParamsFromModelToEma online).emaModel.tensors k).value
        = (online.tensors k).value := by
    intro k hk1 hk2 hk3
    rw [copy_tensors_aligned e1 online halign]
    exact foldl_copy_mem _ _ _ _ k (List.mem_filter.mpr ⟨hk1, hk2⟩) hk3
  cases fz with
  | true =>
    rw [if_pos (show e2.frozen = true from rfl)]
    exact hcopyval n hmem hpn hs
  | false =>
    rw [if_neg (show ¬(e2.frozen = true) by exact fun h => Bool.noConfusion h)]
    have halign2 : e2.emaModel.paramNames = online.paramNames := halign
    rw [ma_tensors_aligned e2 online halign2]
    have hts : ∀ k, e2.shouldUpdateParam k = true →
        k ∈ online.paramNames.filter (fun m => e2.parameterNames.contains m) →
        ((e2.emaModel.tensors) k).value = (online.tensors k).value := by
      intro k hk hkL
      have hk2 := List.mem_filter.mp hkL
      have hkmem : k ∈ em.paramNames := by rw [halign]; exact hk2.1
      exact hcopyval k hkmem hk2.2 hk
    have hnL2 : n ∈ online.paramNames.filter (fun m => e2.parameterNames.contains m) := by
      refine List.mem_filter.mpr ⟨?_, hpn⟩
      rw [← halign]; exact hmem
    exact foldl_lerp_preserve _ _ _ _ _ (fun m hm => hm) _ hts n hs hnL2

theorem copy_tensors_frame (e : KarrasEMA) (online : TModel) (b : String)
    (hb : b ∉ e.emaModel.paramNames) :
    (e.copyParamsFromModelToEma online).emaModel.tensors b = e.emaModel.tensors b := by
  unfold KarrasEMA.copyParamsFromModelToEma
  dsimp only
  apply foldl_pair_copy_frame
  intro pr hpr heq
  have h1 : pr.1 ∈ e.getParamsIter e.emaModel := (List.of_mem_zip hpr).1
  obtain ⟨a, ha, hae⟩ := List.mem_map.mp h1
  have ha1 : pr.1.1 = a := by rw [← hae]
  apply hb
  rw [← heq, ha1]
  exact (List.mem_filter.mp ha).1

theorem ma_tensors_frame (e : KarrasEMA) (online : TModel) (b : String)
    (hb : b ∉ e.emaModel.paramNames) :
    (e.updateMovingAverage online).emaModel.tensors b = e.emaModel.tensors b := by
  unfold KarrasEMA.updateMovingAverage
  dsimp only
  apply foldl_pair_lerp_frame
  intro pr hpr heq
  have h2 : pr.2 ∈ e.getParamsIter e.emaModel := (List.of_mem_zip hpr).2
  obtain ⟨a, ha, hae⟩ := List.mem_map.mp h2
  have ha1 : pr.2.1 = a := by rw [← hae]
  apply hb
  rw [← heq, ha1]
  exact (List.mem_filter.mp ha).1

theorem update_initted_fire (e : KarrasEMA) (m : TModel)
    (hf : e.step % e.updateEvery = 0) (hi : e.initted = false) :
    (e.update m).initted = true := by
  unfold KarrasEMA.update
  dsimp only
  rw [if_neg (show ¬(e.step % e.updateEvery ≠ 0) by simp [hf])]
  rw [if_neg (show ¬(e.initted = true) by simp [hi])]
  split
  · rfl
  · rfl

/-- A small concrete model used by witnesses: one float parameter, one
float buffer. -/
def demoTensors0 : String → Tensor :=
  fun n => if n = "w" then ⟨DType.float32, 0⟩ else ⟨DType.float32, 5⟩

/-- Concrete model with parameter value 0. -/
def demoModel : TModel := ⟨["w"], ["b"], demoTensors0⟩

/-- Concrete online model with parameter value 1. -/
def demoTensors1 : String → Tensor :=
  fun n => if n = "w" then ⟨DType.float32, 1⟩ else ⟨DType.float32, 5⟩

/-- Concrete online model used by witnesses. -/
def demoOnline : TModel := ⟨["w"], ["b"], demoTensors1⟩

/-- A freshly constructed engine with `update_every = 10` (the default). -/
def demoEngine : KarrasEMA := KarrasEMA.init demoModel 1 10 false [] [] []

/-- A freshly constructed frozen engine with `update_every = 2`, used to
exercise the throttle gate. -/
def gateEngine : KarrasEMA := KarrasEMA.init demoModel 1 2 true [] [] []

/-- C1 (amended): `update` increments the step counter by exactly 1
unconditionally, and performs the copy/blend action if and only if the
captured, pre-increment step value modulo `update_every` equals 0; in
particular the very first call (captured step 0) always performs the
action.  Gating by the pre-increment value is witnessed on the action
side by the early return leaving everything except `step` untouched, and
on the firing side by the `initted` flag being set. -/
theorem c1_update_gate (e : KarrasEMA) (online : TModel) (hue : 1 ≤ e.updateEvery) :
    ((e.update online).step = e.step + 1)
    ∧ (e.step % e.updateEvery ≠ 0 → e.update online = { e with step := e.step + 1 })
    ∧ (e.step % e.updateEvery = 0 → e.initted = false → (e.update online).initted = true)
    ∧ (e.step = 0 → e.step % e.updateEvery = 0) := by
  refine ⟨KarrasEMA.update_step e online, KarrasEMA.update_not_fire e online,
    update_initted_fire e online, ?_⟩
  intro h0
  rw [h0]
  exact Nat.zero_mod _

/-- C1 witness: the amended gate behaviour at a concrete fresh engine. -/
theorem c1_update_gate_witness :
    ((demoEngine.update demoOnline).step = demoEngine.step + 1)
    ∧ (demoEngine.step % demoEngine.updateEvery ≠ 0 →
        demoEngine.update demoOnline = { demoEngine with step := demoEngine.step + 1 })
    ∧ (demoEngine.step % demoEngine.updateEvery = 0 → demoEngine.initted = false →
        (demoEngine.update demoOnline).initted = true)
    ∧ (demoEngine.step = 0 → demoEngine.step % demoEngine.updateEvery = 0) :=
  c1_update_gate demoEngine demoOnline (by decide)

/-- C1 counterexample: on a freshly constructed engine with
`update_every = 2`, the first `update` call performs the action (the EMA
parameter is overwritten with the online value and `initted` flips to
`true`) even though the post-increment step value `1` is not congruent
to 0 modulo `update_every`; the action is therefore not gated by the
post-increment value, refuting the claimed biconditional. -/
theorem c1_post_increment_counterexample :
    gateEngine.step = 0
    ∧ 1 ≤ gateEngine.updateEvery
    ∧ (gateEngine.step + 1) % gateEngine.updateEvery ≠ 0
    ∧ gateEngine.initted = false
    ∧ (gateEngine.update demoOnline).initted = true
    ∧ (gateEngine.emaModel.tensors "w").value = 0
    ∧ ((gateEngine.update demoOnline).emaModel.tensors "w").value = 1 :=
  ⟨rfl, by decide, by decide, rfl, rfl, rfl, rfl⟩

/-- C3: after the first firing update on a freshly constructed engine,
every eligible entry of the EMA state (a collected floating/complex
parameter name passing the exclusion rules) exactly equals the
corresponding entry of the online model, even though the code path also
runs the moving-average blend on that same call (the blend is a lerp
between equal values, hence a no-op). -/
theorem c3_first_firing_bootstrap_copy (model online : TModel) (gamma : ℝ) (ue : ℕ)
    (fz : Bool) (noEma ign igs : List String)
    (halign : model.paramNames = online.paramNames) (n : String)
    (hn : n ∈ (KarrasEMA.init model gamma ue fz noEma ign igs).parameterNames)
    (hs : (KarrasEMA.init model gamma ue fz noEma ign igs).shouldUpdateParam n = true) :
    (((KarrasEMA.init model gamma ue fz noEma ign igs).update online).emaModel.tensors n).value
      = (online.tensors n).value := by
  refine update_fresh_value _ online rfl rfl halign n ?_ ?_ hs
  · exact (List.mem_filter.mp hn).1
  · exact List.elem_iff.mpr hn

/-- C3 witness: the bootstrap equality at a concrete fresh engine. -/
theorem c3_first_firing_bootstrap_copy_witness :
    (((KarrasEMA.init demoModel 1 10 false [] [] []).update demoOnline).emaModel.tensors
        "w").value = (demoOnline.tensors "w").value :=
  c3_first_firing_bootstrap_copy demoModel demoOnline 1 10 false [] [] [] rfl "w"
    (by decide) (by decide)

/-- C4: calling `update` `s` times on a freshly constructed engine leaves
the step counter exactly `s`, for every `update_every ≥ 1`, independent
of throttling and of the frozen flag. -/
theorem c4_update_count (model : TModel) (gamma : ℝ) (ue : ℕ) (fz : Bool)
    (noEma ign igs : List String) (ms : ℕ → TModel) (s : ℕ) (hue : 1 ≤ ue) :
    ((KarrasEMA.init model gamma ue fz noEma ign igs).updateN ms s).step = s := by
  induction s with
  | zero => rfl
  | succ k ih =>
    show (((KarrasEMA.init model gamma ue fz noEma ign igs).updateN ms k).update
      (ms k)).step = k + 1
    rw [KarrasEMA.update_step, ih]

/-- C4 witness: five updates on a concrete fresh (frozen) engine with
`update_every = 2` leave the counter at 5. -/
theorem c4_update_count_witness :
    ((KarrasEMA.init demoModel 1 2 true [] [] []).updateN (fun _ => demoOnline) 5).step = 5 :=
  c4_update_count demoModel 1 2 true [] [] [] (fun _ => demoOnline) 5 (by decide)

/-- C10: `update` never modifies any buffer of the EMA model: both the
bootstrap copy and the moving-average blend write only at names drawn
from the EMA model's `named_parameters`, so any buffer name (which, in
torch, is disjoint from the parameter names) keeps its tensor, and the
buffer name list itself is unchanged. -/
theorem c10_update_preserves_buffers (e : KarrasEMA) (online : TModel) (b : String)
    (hbuf : b ∈ e.emaModel.bufferNames) (hb : b ∉ e.emaModel.paramNames) :
    (e.update online).emaModel.tensors b = e.emaModel.tensors b
    ∧ (e.update online).emaModel.bufferNames = e.emaModel.bufferNames := by
  unfold KarrasEMA.update
  dsimp only
  by_cases hg : e.step % e.updateEvery ≠ 0
  · rw [if_pos hg]; exact ⟨rfl, rfl⟩
  · rw [if_neg hg]
    set e1 : KarrasEMA := { e with step := e.step + 1 } with he1
    by_cases hi : e1.initted = true
    · rw [if_pos hi]
      by_cases hfz : e1.frozen = true
      · rw [if_pos hfz]; exact ⟨rfl, rfl⟩
      · rw [if_neg hfz]
        exact ⟨ma_tensors_frame e1 online b hb, rfl⟩
    · rw [if_neg hi]
      set e2 : KarrasEMA := { e1.copyParamsFromModelToEma online with initted := true }
        with he2
      have h2t : e2.emaModel.tensors b = e.emaModel.tensors b :=
        copy_tensors_frame e1 online b hb
      by_cases hfz : e2.frozen = true
      · rw [if_pos hfz]; exact ⟨h2t, rfl⟩
      · rw [if_neg hfz]
        refine ⟨?_, rfl⟩
        rw [ma_tensors_frame e2 online b hb]
        exact h2t

/-- C10 witness: the buffer `b` of the concrete engine is untouched by a
firing, blending update. -/
theorem c10_update_preserves_buffers_witness :
    (demoEngine.update demoOnline).emaModel.tensors "b" = demoEngine.emaModel.tensors "b"
    ∧ (demoEngine.update demoOnline).emaModel.bufferNames = demoEngine.emaModel.bufferNames :=
  c10_update_preserves_buffers demoEngine demoOnline "b" (by decide) (by decide)

theorem betaFun_step_mono (gamma : ℝ) (hg : 0 < gamma) (s t : ℕ) (hst : s ≤ t) :
    betaFun gamma s ≤ betaFun gamma t := by
  unfold betaFun
  have hs1 : (0:ℝ) < (s:ℝ) + 1 := by positivity
  have hcast : (s:ℝ) ≤ (t:ℝ) := Nat.cast_le.mpr hst
  have hbase : (1:ℝ) - 1/((s:ℝ)+1) ≤ 1 - 1/((t:ℝ)+1) := by
    have := one_div_le_one_div_of_le hs1 (by linarith : (s:ℝ)+1 ≤ (t:ℝ)+1)
    linarith
  have hnn : (0:ℝ) ≤ 1 - 1/((s:ℝ)+1) := by
    have h2 : 1/((s:ℝ)+1) ≤ 1 := by
      rw [div_le_one hs1]
      have : (0:ℝ) ≤ (s:ℝ) := Nat.cast_nonneg s
      linarith
    linarith
  exact Real.rpow_le_rpow hnn hbase (by linarith)

theorem betaFun_gamma_antitone (gamma gamma' : ℝ) (hg : 0 < gamma) (hgg : gamma ≤ gamma')
    (s : ℕ) : betaFun gamma' s ≤ betaFun gamma s := by
  unfold betaFun
  cases s with
  | zero =>
    have hz : (1:ℝ) - 1/(((0:ℕ):ℝ)+1) = 0 := by norm_num
    rw [hz, Real.zero_rpow (by linarith : (0:ℝ) < 1 + gamma).ne',
      Real.zero_rpow (by linarith : (0:ℝ) < 1 + gamma').ne']
  | succ k =>
    have hk1 : (1:ℝ) ≤ ((k+1 : ℕ):ℝ) := by
      exact_mod_cast Nat.succ_le_succ (Nat.zero_le k)
    have hs1 : (0:ℝ) < ((k+1:ℕ):ℝ) + 1 := by positivity
    have hpos : (0:ℝ) < 1 - 1/(((k+1:ℕ):ℝ)+1) := by
      have : 1/(((k+1:ℕ):ℝ)+1) < 1 := by
        rw [div_lt_one hs1]; linarith
      linarith
    have hle1 : (1:ℝ) - 1/(((k+1:ℕ):ℝ)+1) ≤ 1 := by
      have : (0:ℝ) ≤ 1/(((k+1:ℕ):ℝ)+1) := by positivity
      linarith
    exact Real.rpow_le_rpow_of_exponent_ge hpos hle1 (by linarith)

/-- C2 (amended): `beta(step) = (1 - 1/(step+1))^(1+gamma)` is
monotonically increasing in `step` for every fixed `gamma > 0`; for every
fixed `step` it is monotonically decreasing (not increasing) in `gamma`. -/
theorem c2_beta_monotonicity (gamma gamma' : ℝ) (hg : 0 < gamma) (hgg : gamma ≤ gamma')
    (s t : ℕ) (hst : s ≤ t) :
    betaFun gamma s ≤ betaFun gamma t ∧ betaFun gamma' s ≤ betaFun gamma s :=
  ⟨betaFun_step_mono gamma hg s t hst, betaFun_gamma_antitone gamma gamma' hg hgg s⟩

/-- C2 witness: the amended monotonicity at `gamma = 1, gamma' = 2`,
steps 1 and 2. -/
theorem c2_beta_monotonicity_witness :
    (0:ℝ) < 1 ∧ (1:ℝ) ≤ 2 ∧ (1:ℕ) ≤ 2
    ∧ (betaFun 1 1 ≤ betaFun 1 2 ∧ betaFun 2 1 ≤ betaFun 1 1) :=
  ⟨one_pos, one_le_two, by decide,
    c2_beta_monotonicity 1 2 one_pos one_le_two 1 2 (by decide)⟩

/-- C2 counterexample: at fixed step 1, moving `gamma` up from 1 to 2
strictly decreases `beta` (`(1/2)^3 < (1/2)^2`), so `beta` is not
increasing in `gamma` for fixed step. -/
theorem c2_gamma_counterexample :
    (0:ℝ) < 1 ∧ (1:ℝ) < 2 ∧ betaFun 2 1 < betaFun 1 1 := by
  have hb : (1:ℝ) - 1 / (((1:ℕ):ℝ) + 1) = 1/2 := by norm_num
  have h1 : betaFun 1 1 = (1/2 : ℝ)^(2:ℕ) := by
    unfold betaFun
    rw [hb, show (1:ℝ)+1 = ((2:ℕ):ℝ) by norm_num, Real.rpow_natCast]
  have h2 : betaFun 2 1 = (1/2 : ℝ)^(3:ℕ) := by
    unfold betaFun
    rw [hb, show (1:ℝ)+2 = ((3:ℕ):ℝ) by norm_num, Real.rpow_natCast]
  refine ⟨one_pos, one_lt_two, ?_⟩
  rw [h1, h2]
  norm_num

theorem sortSteps_perm (l : List ℕ) : List.Perm (sortSteps l) l :=
  List.mergeSort_perm l _

theorem sortSteps_mem (l : List ℕ) (x : ℕ) : x ∈ sortSteps l ↔ x ∈ l :=
  (sortSteps_perm l).mem_iff

theorem sortSteps_length (l : List ℕ) : (sortSteps l).length = l.length :=
  (sortSteps_perm l).length_eq

theorem bleTrans : ∀ (a b c : ℕ), Nat.ble a b → Nat.ble b c → Nat.ble a c := by
  intro a b c hab hbc
  simp only [Nat.ble_eq] at *
  omega

theorem bleTotal : ∀ (a b : ℕ), Nat.ble a b || Nat.ble b a := by
  intro a b
  rcases Nat.le_total a b with h | h <;> simp [h]

theorem sortSteps_sorted (l : List ℕ) : (sortSteps l).Pairwise (fun a b => a ≤ b) := by
  have h := @List.sorted_mergeSort ℕ (fun a b => Nat.ble a b) bleTrans bleTotal l
  exact h.imp (by intro a b hab; simpa using hab)

theorem sortSteps_of_sorted (l : List ℕ) (h : l.Pairwise (fun a b => a ≤ b)) :
    sortSteps l = l := by
  apply List.mergeSort_of_sorted
  exact h.imp (by intro a b hab; simpa using hab)

theorem cleanupSteps_length (maxC : ℕ) (l : List ℕ) :
    (cleanupSteps maxC l).length = min l.length maxC := by
  unfold cleanupSteps
  dsimp only
  rw [List.length_drop, sortSteps_length]
  omega

theorem cleanupSteps_subset (maxC : ℕ) (l : List ℕ) (x : ℕ)
    (hx : x ∈ cleanupSteps maxC l) : x ∈ l := by
  unfold cleanupSteps at hx
  dsimp only at hx
  exact (sortSteps_mem l x).mp (List.drop_subset _ _ hx)

theorem cleanupSteps_dominates (maxC : ℕ) (l : List ℕ) (x y : ℕ)
    (hx : x ∈ l) (hxn : x ∉ cleanupSteps maxC l) (hy : y ∈ cleanupSteps maxC l) :
    x ≤ y := by
  unfold cleanupSteps at hxn hy
  dsimp only at hxn hy
  have hsort := sortSteps_sorted l
  rw [← List.take_append_drop ((sortSteps l).length - maxC) (sortSteps l)] at hsort
  have hcross := (List.pairwise_append.mp hsort).2.2
  have hxs : x ∈ sortSteps l := (sortSteps_mem l x).mpr hx
  have hxtake : x ∈ (sortSteps l).take ((sortSteps l).length - maxC) := by
    rcases List.mem_append.mp
      (by rw [List.take_append_drop]; exact hxs :
        x ∈ (sortSteps l).take ((sortSteps l).length - maxC)
          ++ (sortSteps l).drop ((sortSteps l).length - maxC)) with h | h
    · exact h
    · exact absurd h hxn
  exact hcross x hxtake y hy

/-- C5: after a checkpoint-write-and-prune cycle, for each profile index
at most `max_checkpoints` files remain; the number retained is exactly
`min (written) max_checkpoints`, every retained step was written, and
every evicted step is strictly smaller than every retained step — the
retained steps are exactly the `max_checkpoints` largest previously
written, eviction removing smallest steps first. -/
theorem c5_cleanup_keeps_largest (ph : PostHocEMA) (i : ℕ)
    (hi : i < ph.emaModels.length) :
    (ph.createCheckpoint.cleanupOldCheckpoints.files i).length
        = min (ph.files i ++ [ph.step]).length ph.maxCheckpoints
    ∧ (∀ x ∈ ph.createCheckpoint.cleanupOldCheckpoints.files i, x ∈ ph.files i ++ [ph.step])
    ∧ (∀ x ∈ ph.files i ++ [ph.step],
        x ∉ ph.createCheckpoint.cleanupOldCheckpoints.files i →
        ∀ y ∈ ph.createCheckpoint.cleanupOldCheckpoints.files i, x < y) := by
  have hfe : ph.createCheckpoint.cleanupOldCheckpoints.files i
      = cleanupSteps ph.maxCheckpoints (ph.files i ++ [ph.step]) := by
    unfold PostHocEMA.createCheckpoint PostHocEMA.cleanupOldCheckpoints
    dsimp only
    simp only [hi, if_true]
  rw [hfe]
  refine ⟨cleanupSteps_length _ _, fun x hx => cleanupSteps_subset _ _ x hx, ?_⟩
  intro x hx hxn y hy
  exact lt_of_le_of_ne (cleanupSteps_dominates _ _ x y hx hxn hy)
    (fun he => hxn (by rw [he]; exact hy))

/-- Concrete `PostHocEMA` state used by witnesses: one profile, one
stored checkpoint at step 1, `max_checkpoints = 1`, current step 2. -/
def demoPH : PostHocEMA :=
  { maxCheckpoints := 1, updateEvery := 10, checkpointEvery := 1,
    checkpointDtype := DType.float16, emaModels := [demoEngine], step := 2,
    files := fun _ => [1] }

/-- C5 witness: the prune behaviour at the concrete store. -/
theorem c5_cleanup_keeps_largest_witness :
    (demoPH.createCheckpoint.cleanupOldCheckpoints.files 0).length
        = min (demoPH.files 0 ++ [demoPH.step]).length demoPH.maxCheckpoints
    ∧ (∀ x ∈ demoPH.createCheckpoint.cleanupOldCheckpoints.files 0,
        x ∈ demoPH.files 0 ++ [demoPH.step])
    ∧ (∀ x ∈ demoPH.files 0 ++ [demoPH.step],
        x ∉ demoPH.createCheckpoint.cleanupOldCheckpoints.files 0 →
        ∀ y ∈ demoPH.createCheckpoint.cleanupOldCheckpoints.files 0, x < y) :=
  c5_cleanup_keeps_largest demoPH 0 (by decide)

theorem cleanupSteps_of_sorted_le (maxC : ℕ) (l : List ℕ)
    (hs : l.Pairwise (fun a b => a ≤ b)) (hl : l.length ≤ maxC) :
    cleanupSteps maxC l = l := by
  unfold cleanupSteps
  dsimp only
  rw [sortSteps_of_sorted l hs, Nat.sub_eq_zero_of_le hl, List.drop_zero]

theorem multiplesFilter_succ (ce n : ℕ) :
    (List.range' 1 (n+1)).filter (fun s => s % ce == 0)
      = (List.range' 1 n).filter (fun s => s % ce == 0)
        ++ (if (n+1) % ce == 0 then [n+1] else []) := by
  rw [List.range'_1_concat, List.filter_append]
  simp [List.filter_singleton, Nat.one_add]

theorem multiplesFilter_length (ce n : ℕ) :
    ((List.range' 1 n).filter (fun s => s % ce == 0)).length = n / ce := by
  induction n with
  | zero => simp
  | succ k ih =>
    rw [multiplesFilter_succ, List.length_append, ih, Nat.succ_div]
    by_cases h : (k+1) % ce = 0
    · have hd : ce ∣ k + 1 := Nat.dvd_of_mod_eq_zero h
      simp [h, hd]
    · have hd : ¬ ce ∣ k + 1 := fun hdvd => h (Nat.mod_eq_zero_of_dvd hdvd)
      simp [h, hd]

theorem multiplesFilter_sorted (ce n : ℕ) :
    ((List.range' 1 n).filter (fun s => s % ce == 0)).Pairwise (fun a b => a ≤ b) := by
  have h : (List.range' 1 n).Pairwise (· < ·) := List.pairwise_lt_range' 1 n
  exact (h.filter _).imp le_of_lt

theorem multiplesFilter_le (ce n : ℕ) (a : ℕ)
    (ha : a ∈ (List.range' 1 n).filter (fun s => s % ce == 0)) : a ≤ n := by
  have := (List.mem_filter.mp ha).1
  have h2 := List.mem_range'_1.mp this
  omega

theorem phUpdate_step (ph : PostHocEMA) (m : TModel) :
    (ph.update m).step = ph.step + 1 := by
  unfold PostHocEMA.update
  dsimp only
  split <;> rfl

theorem phUpdate_checkpointEvery (ph : PostHocEMA) (m : TModel) :
    (ph.update m).checkpointEvery = ph.checkpointEvery := by
  unfold PostHocEMA.update
  dsimp only
  split <;> rfl

theorem phUpdate_maxCheckpoints (ph : PostHocEMA) (m : TModel) :
    (ph.update m).maxCheckpoints = ph.maxCheckpoints := by
  unfold PostHocEMA.update
  dsimp only
  split <;> rfl

theorem phUpdate_emaModels_length (ph : PostHocEMA) (m : TModel) :
    (ph.update m).emaModels.length = ph.emaModels.length := by
  unfold PostHocEMA.update
  dsimp only
  split <;> simp [PostHocEMA.createCheckpoint, PostHocEMA.cleanupOldCheckpoints]

theorem phUpdate_files (ph : PostHocEMA) (m : TModel) (i : ℕ)
    (hi : i < ph.emaModels.length) :
    (ph.update m).files i =
      if (ph.step + 1) % ph.checkpointEvery = 0 then
        cleanupSteps ph.maxCheckpoints (ph.files i ++ [ph.step + 1])
      else ph.files i := by
  unfold PostHocEMA.update
  dsimp only
  by_cases h : (ph.step + 1) % ph.checkpointEvery = 0
  · rw [if_pos h, if_pos h]
    unfold PostHocEMA.createCheckpoint PostHocEMA.cleanupOldCheckpoints
    dsimp only
    simp [hi]
  · rw [if_neg h, if_neg h]

theorem phUpdateN_step (ph : PostHocEMA) (ms : ℕ → TModel) (n : ℕ) :
    (ph.updateN ms n).step = ph.step + n := by
  induction n with
  | zero => rfl
  | succ k ih =>
    show ((ph.updateN ms k).update (ms k)).step = ph.step + (k + 1)
    rw [phUpdate_step, ih]
    omega


theorem phUpdateN_checkpointEvery (ph : PostHocEMA) (ms : ℕ → TModel) (n : ℕ) :
    (ph.updateN ms n).checkpointEvery = ph.checkpointEvery := by
  induction n with
  | zero => rfl
  | succ k ih =>
    show ((ph.updateN ms k).update (ms k)).checkpointEvery = ph.checkpointEvery
    rw [phUpdate_checkpointEvery, ih]

theorem phUpdateN_maxCheckpoints (ph : PostHocEMA) (ms : ℕ → TModel) (n : ℕ) :
    (ph.updateN ms n).maxCheckpoints = ph.maxCheckpoints := by
  induction n with
  | zero => rfl
  | succ k ih =>
    show ((ph.updateN ms k).update (ms k)).maxCheckpoints = ph.maxCheckpoints
    rw [phUpdate_maxCheckpoints, ih]

theorem phUpdateN_emaModels_length (ph : PostHocEMA) (ms : ℕ → TModel) (n : ℕ) :
    (ph.updateN ms n).emaModels.length = ph.emaModels.length := by
  induction n with
  | zero => rfl
  | succ k ih =>
    show ((ph.updateN ms k).update (ms k)).emaModels.length = ph.emaModels.length
    rw [phUpdate_emaModels_length, ih]

theorem phUpdateN_files (ph : PostHocEMA) (ms : ℕ → TModel) (n : ℕ)
    (hstep : ph.step = 0)
    (hmax : n / ph.checkpointEvery ≤ ph.maxCheckpoints)
    (i : ℕ) (hi : i < ph.emaModels.length) (hfi : ph.files i = []) :
    (ph.updateN ms n).files i
      = (List.range' 1 n).filter (fun s => s % ph.checkpointEvery == 0) := by
  induction n with
  | zero => simpa using hfi
  | succ k ih =>
    have hmaxk : k / ph.checkpointEvery ≤ ph.maxCheckpoints :=
      le_trans (Nat.div_le_div_right (Nat.le_succ k)) hmax
    have hik : i < (ph.updateN ms k).emaModels.length := by
      rw [phUpdateN_emaModels_length]; exact hi
    have hfk := ih hmaxk
    show ((ph.updateN ms k).update (ms k)).files i = _
    rw [phUpdate_files _ _ i hik, phUpdateN_step, hstep, phUpdateN_checkpointEvery,
      phUpdateN_maxCheckpoints, hfk, multiplesFilter_succ]
    simp only [Nat.zero_add]
    by_cases h : (k + 1) % ph.checkpointEvery = 0
    · rw [if_pos h]
      have hifb : (if ((k+1) % ph.checkpointEvery == 0) = true then [k+1] else []) = [k+1] := by
        simp [h]
      rw [hifb]
      apply cleanupSteps_of_sorted_le
      · rw [List.pairwise_append]
        refine ⟨multiplesFilter_sorted _ _, List.pairwise_singleton _ _, ?_⟩
        intro a ha b hb
        rw [List.mem_singleton] at hb
        subst hb
        exact le_trans (multiplesFilter_le _ _ a ha) (Nat.le_succ k)
      · rw [List.length_append, multiplesFilter_length, List.length_singleton]
        have : (k+1) / ph.checkpointEvery = k / ph.checkpointEvery + 1 := by
          rw [Nat.succ_div, if_pos (Nat.dvd_of_mod_eq_zero h)]
        omega
    · rw [if_neg h]
      have hifb : (if ((k+1) % ph.checkpointEvery == 0) = true then [k+1] else []) = [] := by
        simp [h]
      rw [hifb, List.append_nil]

/-- C6: `PostHocEMA.update` writes one checkpoint file per profile
(pruning immediately afterwards) exactly when its post-increment global
step is a multiple of `checkpoint_every`; and driving 3000 update calls
from a fresh store with `checkpoint_every = 1000` (and at least 3
checkpoints retained, default 100) leaves exactly 3 checkpoints per
profile, at the boundary steps 1000, 2000 and 3000. -/
theorem c6_checkpoint_cadence (ph : PostHocEMA) (m : TModel) (i : ℕ)
    (hi : i < ph.emaModels.length)
    (ph3 : PostHocEMA) (ms : ℕ → TModel) (j : ℕ)
    (hstep : ph3.step = 0) (hce : ph3.checkpointEvery = 1000)
    (hmax : 3 ≤ ph3.maxCheckpoints) (hfj : ph3.files j = [])
    (hj : j < ph3.emaModels.length) :
    ((ph.update m).files i =
      if (ph.step + 1) % ph.checkpointEvery = 0 then
        cleanupSteps ph.maxCheckpoints (ph.files i ++ [ph.step + 1])
      else ph.files i)
    ∧ (ph3.updateN ms 3000).files j = [1000, 2000, 3000] := by
  refine ⟨phUpdate_files ph m i hi, ?_⟩
  have hm : 3000 / ph3.checkpointEvery ≤ ph3.maxCheckpoints := by
    rw [hce]
    have h3 : (3000 : ℕ) / 1000 = 3 := by norm_num
    rw [h3]
    exact hmax
  rw [phUpdateN_files ph3 ms 3000 hstep hm j hj hfj, hce]
  decide

/-- Fresh concrete store with two profiles and `checkpoint_every = 1000`. -/
def demoPH3 : PostHocEMA :=
  { maxCheckpoints := 100, updateEvery := 10, checkpointEvery := 1000,
    checkpointDtype := DType.float16, emaModels := [demoEngine, gateEngine], step := 0,
    files := fun _ => [] }

/-- C6 witness: the cadence behaviour at concrete stores. -/
theorem c6_checkpoint_cadence_witness :
    ((demoPH.update demoOnline).files 0 =
      if (demoPH.step + 1) % demoPH.checkpointEvery = 0 then
        cleanupSteps demoPH.maxCheckpoints (demoPH.files 0 ++ [demoPH.step + 1])
      else demoPH.files 0)
    ∧ (demoPH3.updateN (fun _ => demoOnline) 3000).files 1 = [1000, 2000, 3000] :=
  c6_checkpoint_cadence demoPH demoOnline 0 (by decide) demoPH3 (fun _ => demoOnline) 1
    rfl rfl (by decide) rfl (by decide)

/-- C7: `state_dict` fails fatally (an exception, modelled as
`Except.error`) both when no checkpoint file exists (Python `max` of the
empty `timesteps` list raises `ValueError`, whether or not a target step
is given) and when the requested target step exceeds the maximum stored
step (the assert); on success the synthesis step is exactly the
requested one — never silently clamped. -/
theorem c7_state_dict_errors (ph : PostHocEMA) (stepArg : Option ℕ) :
    (ph.collectTimesteps = [] → ∃ msg, ph.stateDictStep stepArg = Except.error msg)
    ∧ (∀ s m, ph.collectTimesteps.max? = some m → m < s →
        ∃ msg, ph.stateDictStep (some s) = Except.error msg)
    ∧ (∀ s r, ph.stateDictStep (some s) = Except.ok r → r = s) := by
  refine ⟨?_, ?_, ?_⟩
  · intro h
    refine ⟨"max() arg is an empty sequence", ?_⟩
    unfold PostHocEMA.stateDictStep
    rw [h]
    rfl
  · intro s m hm hlt
    refine ⟨"Cannot synthesize for step greater than max available step", ?_⟩
    unfold PostHocEMA.stateDictStep
    dsimp only
    rw [hm]
    dsimp only [Option.getD]
    rw [if_neg (by omega)]
  · intro s r h
    unfold PostHocEMA.stateDictStep at h
    dsimp only at h
    cases hmax : ph.collectTimesteps.max? with
    | none => rw [hmax] at h; cases h
    | some m =>
      rw [hmax] at h
      dsimp only [Option.getD] at h
      by_cases hle : s ≤ m
      · rw [if_pos hle] at h
        cases h
        rfl
      · rw [if_neg hle] at h
        cases h

/-- A store with one profile and no checkpoint files at all. -/
def demoPHEmpty : PostHocEMA :=
  { maxCheckpoints := 100, updateEvery := 10, checkpointEvery := 1000,
    checkpointDtype := DType.float16, emaModels := [demoEngine], step := 0,
    files := fun _ => [] }

/-- C7 witness: the error behaviour at concrete stores — no checkpoints
at all, a target step 7 beyond the stored maximum 1, and the exactness
of a successful request. -/
theorem c7_state_dict_errors_witness :
    (∃ msg, demoPHEmpty.stateDictStep none = Except.error msg)
    ∧ (∃ msg, demoPH.stateDictStep (some 7) = Except.error msg)
    ∧ (∀ r, demoPH.stateDictStep (some 1) = Except.ok r → r = 1) :=
  ⟨(c7_state_dict_errors demoPHEmpty none).1
      (by simp [PostHocEMA.collectTimesteps, demoPHEmpty, sortSteps]),
   (c7_state_dict_errors demoPH (some 7)).2.1 7 1
      (by simp [PostHocEMA.collectTimesteps, demoPH, sortSteps]; decide) (by decide),
   fun r h => (c7_state_dict_errors demoPH (some 1)).2.2 1 r h⟩

/-- C9: every tensor entry of every checkpoint file written by
`_create_checkpoint` carries dtype float64 — the whole state dict of each
EMA module is converted to double precision before saving, for every
profile, regardless of the configured `checkpoint_dtype` and of the
dtypes of the live model. -/
theorem c9_checkpoint_float64 (ph : PostHocEMA) :
    (ph.createCheckpointFiles.map (fun f => f.2.2)).all
      (fun sd => sd.all (fun kv => kv.2.dtype == DType.float64)) = true := by
  rw [List.all_eq_true]
  intro sd hsd
  rw [List.all_eq_true]
  intro kv hkv
  simp only [List.mem_map] at hsd
  obtain ⟨f, hf, rfl⟩ := hsd
  simp only [PostHocEMA.createCheckpointFiles, List.mem_map] at hf
  obtain ⟨ie, hie, rfl⟩ := hf
  dsimp only at hkv
  simp only [List.mem_map] at hkv
  obtain ⟨kv0, hkv0, rfl⟩ := hkv
  rfl

theorem digitChar_ne_dot : ∀ d, d < 10 → Nat.digitChar d ≠ '.' := by decide

theorem digitChar_isDigit : ∀ d, d < 10 → (Nat.digitChar d).isDigit = true := by decide

theorem charToDigit_digitChar : ∀ d, d < 10 → charToDigit (Nat.digitChar d) = d := by decide

theorem renderNat_mem_lt (n : ℕ) (c : Char) (hc : c ∈ renderNat n) :
    ∃ d, d < 10 ∧ c = Nat.digitChar d := by
  unfold renderNat at hc
  by_cases h : n = 0
  · rw [if_pos h] at hc
    rw [List.mem_singleton] at hc
    exact ⟨0, by omega, hc.trans (by decide)⟩
  · rw [if_neg h] at hc
    simp only [List.mem_map, List.mem_reverse] at hc
    obtain ⟨d, hd, rfl⟩ := hc
    exact ⟨d, Nat.digits_lt_base (by norm_num) hd, rfl⟩

theorem renderNat_no_dot (n : ℕ) : '.' ∉ renderNat n := by
  intro h
  obtain ⟨d, hd, hcd⟩ := renderNat_mem_lt n '.' h
  exact digitChar_ne_dot d hd hcd.symm

theorem renderNat_ne_nil (n : ℕ) : renderNat n ≠ [] := by
  unfold renderNat
  by_cases h : n = 0
  · rw [if_pos h]; exact List.cons_ne_nil _ _
  · rw [if_neg h]
    intro he
    rw [List.map_eq_nil_iff, List.reverse_eq_nil_iff] at he
    exact (Nat.digits_ne_nil_iff_ne_zero.mpr h) he

theorem renderNat_all_digits (n : ℕ) : (renderNat n).all Char.isDigit = true := by
  rw [List.all_eq_true]
  intro c hc
  obtain ⟨d, hd, rfl⟩ := renderNat_mem_lt n c hc
  exact digitChar_isDigit d hd

theorem foldl_digits_eq (ds : List ℕ) (hds : ∀ d ∈ ds, d < 10) (acc : ℕ) :
    ((ds.reverse.map Nat.digitChar).foldl (fun a c => a * 10 + charToDigit c) acc)
      = acc * 10 ^ ds.length + Nat.ofDigits 10 ds := by
  induction ds generalizing acc with
  | nil => simp [Nat.ofDigits]
  | cons d t ih =>
    rw [List.reverse_cons, List.map_append, List.foldl_append]
    simp only [List.map_cons, List.map_nil, List.foldl_cons, List.foldl_nil]
    rw [ih (fun x hx => hds x (List.mem_cons_of_mem d hx))]
    rw [charToDigit_digitChar d (hds d (List.mem_cons_self d t))]
    rw [Nat.ofDigits_cons, List.length_cons, pow_succ]
    ring

theorem parseNat_renderNat (n : ℕ) : parseNat (renderNat n) = some n := by
  unfold parseNat
  rw [if_pos ⟨renderNat_ne_nil n, renderNat_all_digits n⟩]
  congr 1
  by_cases h : n = 0
  · subst h; decide
  · unfold renderNat
    rw [if_neg h]
    rw [foldl_digits_eq (Nat.digits 10 n) (fun d hd => Nat.digits_lt_base (by norm_num) hd) 0]
    simp [Nat.ofDigits_digits]

theorem splitOnDot_no_dot (l : List Char) (hl : '.' ∉ l) : splitOnDot l = [l] := by
  induction l with
  | nil => rfl
  | cons c t ih =>
    have hct : c ≠ '.' := fun h => hl (h ▸ List.mem_cons_self c t)
    have ht : '.' ∉ t := fun h => hl (List.mem_cons_of_mem c h)
    rw [splitOnDot]
    rw [if_neg hct, ih ht]

theorem splitOnDot_append (a b : List Char) (ha : '.' ∉ a) :
    splitOnDot (a ++ '.' :: b) = a :: splitOnDot b := by
  induction a with
  | nil =>
    show splitOnDot ('.' :: b) = [] :: splitOnDot b
    rw [splitOnDot]
    rw [if_pos rfl]
  | cons c t ih =>
    have hct : c ≠ '.' := fun h => ha (h ▸ List.mem_cons_self c t)
    have ht : '.' ∉ t := fun h => ha (List.mem_cons_of_mem c h)
    show splitOnDot (c :: (t ++ '.' :: b)) = (c :: t) :: splitOnDot b
    rw [splitOnDot]
    rw [if_neg hct, ih ht]

theorem pathStem_concat (a : List Char) :
    pathStem (a ++ ('.' :: ['p', 't'])) = a := by
  unfold pathStem
  rw [if_pos (by simp)]
  have h : (a ++ ('.' :: ['p', 't'])).reverse = 't' :: 'p' :: '.' :: a.reverse := by
    simp
  rw [h]
  rw [List.dropWhile_cons_of_pos (by decide), List.dropWhile_cons_of_pos (by decide),
    List.dropWhile_cons_of_neg (by decide)]
  simp

/-- C8: the checkpoint filename is exactly the decimal profile index, a
dot, the decimal step, and the `.pt` extension; splitting the file stem
on dots and reading the two components back as integers recovers exactly
the original pair — the mapping is a lossless round-trip. -/
theorem c8_filename_roundtrip (idx step : ℕ) :
    parseCheckpointFilename (checkpointFilename idx step) = some (idx, step) := by
  unfold checkpointFilename parseCheckpointFilename
  rw [pathStem_concat]
  rw [splitOnDot_append _ _ (renderNat_no_dot idx)]
  rw [splitOnDot_no_dot _ (renderNat_no_dot step)]
  dsimp only
  rw [parseNat_renderNat, parseNat_renderNat]
